import Mathlib

/-!
Verification of the availability core of `src/backend/main.py`.

Shallow embedding conventions:
* Instants are modelled as `Int` minutes on the local wall-clock timeline of
  the requested day (`tz.localize` / `astimezone` normalisation collapses to
  this linear timeline; midnight of the requested day is 0, the next midnight
  is 1440). Civil times of day (`datetime.time`) become their minute count.
* Dates are triples `(y, m, d) : Nat × Nat × Nat`; Python's proleptic
  Gregorian `date.toordinal` / `date.weekday` are reimplemented below.
* The effectful boundary of `fetch_busy_intervals_ical` (environment
  variables, `requests.get` + `raise_for_status`, `ics.Calendar` parsing,
  per-event attribute access) is modelled by a record `FetchEnv` of the
  outcomes of those external calls; `none` marks the call raising.
* `generate_slots` returns `Option AvailabilityResponse`: `none` models an
  exception escaping the function (the only raise site the model keeps is
  `datetime.strptime` on an invalid date string; the configured timezone
  name is treated as a valid IANA zone, as §6 of the design assumes).
* The `while` loop of `generate_slots` is embedded as the fuel-indexed
  function `slotLoopF`; `generate_slots` supplies fuel
  `(close - open).toNat + 1`, which is proved sufficient whenever
  `0 < slot_minutes` (the loop advances the cursor by `slot_minutes` each
  iteration, so the distance to `close` strictly decreases).
* Emitted slots are kept as their start instants (`List Int`); the Python
  code renders each via `isoformat()`, an injective presentation step.
-/

namespace Booking

/-- Python `date.toordinal` helper: is `y` a Gregorian leap year. -/
def isLeap (y : Nat) : Bool :=
  (y % 4 == 0 && y % 100 != 0) || (y % 400 == 0)

/-- Days in month `m` of year `y` (proleptic Gregorian, as Python `datetime`). -/
def daysInMonth (y m : Nat) : Nat :=
  if m = 2 then (if isLeap y then 29 else 28)
  else if m = 4 ∨ m = 6 ∨ m = 9 ∨ m = 11 then 30
  else 31

/-- Days in year `y` before the first of month `m`. -/
def daysBeforeMonth (y m : Nat) : Nat :=
  ((List.range (m - 1)).map (fun i => daysInMonth y (i + 1))).sum

/-- Python `date(y, m, d).toordinal()`: day 1 is 0001-01-01. -/
def toOrdinal (y m d : Nat) : Nat :=
  365 * (y - 1) + (y - 1) / 4 - (y - 1) / 100 + (y - 1) / 400
    + daysBeforeMonth y m + d

/-- Python `date(y, m, d).weekday()`: Monday = 0 … Sunday = 6
(0001-01-01 was a Monday). -/
def dateWeekday (y m d : Nat) : Nat :=
  (toOrdinal y m d + 6) % 7

/-- `main.py` lines 86–94, `get_business_hours`: map the weekday of the given
date to the open/close window in minutes since local midnight.
Mon–Fri 09:00–18:00, Sat 10:00–14:00, Sunday closed (`none`). -/
def get_business_hours (y m d : Nat) : Option (Int × Int) :=
  let weekday := dateWeekday y m d
  if weekday = 0 ∨ weekday = 1 ∨ weekday = 2 ∨ weekday = 3 ∨ weekday = 4 then
    some (9 * 60, 18 * 60)
  else if weekday = 5 then
    some (10 * 60, 14 * 60)
  else
    none

/-- Outcomes of the external calls made by one request, in call order:
* `icalUrl`: `os.getenv("GOOGLE_CALENDAR_ICAL_URL")` (`none` = unset);
* `businessTz`: `os.getenv("BUSINESS_TZ")` (`none` = unset, default applies);
* `icsImportOk`: whether `from ics import Calendar` succeeds;
* `netBody`: `none` iff `requests.get`/`raise_for_status` raises, otherwise
  the response text;
* `calParse`: outcome of `Calendar(body)` — `none` = feed parse failure,
  otherwise the event list, each event being `none` when accessing its
  `begin`/`end` fields raises, else `(begin, optional end)` as instants in
  local minutes relative to the requested day's midnight (the
  naive-localize / aware-astimezone normalisation of lines 126–135 lands
  every timestamp on this one timeline). -/
structure FetchEnv where
  icalUrl : Option String
  businessTz : Option String
  icsImportOk : Bool
  netBody : Option String
  calParse : String → Option (List (Option (Int × Option Int)))

/-- `main.py` lines 119–141 for one event: default end = begin + 30 minutes
when absent, clip to the day `[0, 1440)` window, keep only when the clipped
interval is non-empty; `none` input (field access raised) is skipped. -/
def eventClip (ev : Option (Int × Option Int)) : Option (Int × Int) :=
  match ev with
  | none => none
  | some (b, oe) =>
    let ev_end := oe.getD (b + 30)
    let latest_start := max b 0
    let earliest_end := min ev_end 1440
    if latest_start < earliest_end then some (latest_start, earliest_end)
    else none

/-- Inner state of the merge loop of `main.py` lines 146–151: `(cs, ce)` is
the last (still extendable) merged interval, the argument list is the rest of
the sorted input. A new interval is started exactly when its start lies
strictly after the current end; otherwise the current end is extended. -/
def mergeGo (cs ce : Int) : List (Int × Int) → List (Int × Int)
  | [] => [(cs, ce)]
  | (s, e) :: rest =>
    if s > ce then (cs, ce) :: mergeGo s e rest
    else mergeGo cs (max ce e) rest

/-- The merge loop of `main.py` lines 145–151 on an already sorted list. -/
def mergeSorted : List (Int × Int) → List (Int × Int)
  | [] => []
  | (s, e) :: rest => mergeGo s e rest

/-- `main.py` lines 143–152: sort by interval start (Python `list.sort` with
`key=lambda x: x[0]` is a stable sort; an insertion sort keyed the same way
is stable too, hence extensionally the same function) and merge overlapping
intervals. -/
def merge_busy (busy : List (Int × Int)) : List (Int × Int) :=
  mergeSorted (List.insertionSort (fun a b : Int × Int => a.1 ≤ b.1) busy)

/-- Python `str.strip()`: drop leading and trailing whitespace
(kernel-reducible, unlike `String.trim`). -/
def pyStrip (s : String) : String :=
  String.mk (((s.toList.dropWhile Char.isWhitespace).reverse.dropWhile
    Char.isWhitespace).reverse)

/-- `main.py` lines 97–152, `fetch_busy_intervals_ical`, over the recorded
outcomes of its external calls. Every failure branch returns `[]`; the
function is total, so no exception reaches the caller. -/
def fetch_busy_intervals_ical (env : FetchEnv) : List (Int × Int) :=
  let ical_url := pyStrip (env.icalUrl.getD (""))
  if ical_url = ("") then []
  else if !env.icsImportOk then []
  else
    match env.netBody with
    | none => []
    | some body =>
      match env.calParse body with
      | none => []
      | some events => merge_busy (events.filterMap eventClip)

/-- `main.py` lines 179–183, `is_free`: a candidate `[s, e)` is free iff the
half-open overlap test `s < b_end ∧ e > b_start` fails for every busy
interval. -/
def is_free (busy : List (Int × Int)) (s e : Int) : Bool :=
  busy.all (fun b => !(decide (s < b.2) && decide (e > b.1)))

/-- `main.py` lines 185–190, the slot loop, fuel-indexed: while
`cur + delta ≤ end` the candidate `[cur, cur + delta)` is emitted when free
and the cursor advances by `delta`. With fuel exceeding `(end - cur).toNat`
and `0 < delta` the fuel never runs out (proved below), so this is the
loop's exact behaviour under the positive-slot-length precondition. -/
def slotLoopF (busy : List (Int × Int)) (delta endT : Int) :
    Nat → Int → List Int
  | 0, _ => []
  | fuel + 1, cur =>
    if cur + delta ≤ endT then
      (if is_free busy cur (cur + delta) then [cur] else [])
        ++ slotLoopF busy delta endT fuel (cur + delta)
    else []

/-- Python truthiness of `os.getenv("GOOGLE_CALENDAR_ICAL_URL")` as used on
`main.py` lines 165 and 193: true iff the variable is set to a non-empty
string. Note: no `.strip()` here, unlike line 98. -/
def configuredFlag (u : Option String) : Bool :=
  !(u.getD ("") == (""))

/-- The shape check of the route's `pattern=r"^\d\x7b4\x7d-\d\x7b2\x7d-\d\x7b2\x7d$"`
(`main.py` line 198): ten characters, `DDDD-DD-DD` with `D` a digit. -/
def matchesDatePattern (s : String) : Bool :=
  match s.toList with
  | [y1, y2, y3, y4, c1, m1, m2, c2, d1, d2] =>
    y1.isDigit && y2.isDigit && y3.isDigit && y4.isDigit
      && (c1 == '-') && (m1.isDigit && m2.isDigit)
      && (c2 == '-') && (d1.isDigit && d2.isDigit)
  | _ => false

/-- `datetime.strptime(date_str, "%Y-%m-%d")` (`main.py` line 160) restricted
to pattern-shaped strings: reads the three numeric fields and validates them
exactly as Python's `datetime` constructor does (year 1–9999, month 1–12, day
within the month); `none` models the `ValueError` raise. (On strings the
route pattern rejects, `strptime` is slightly more lenient about digit
counts; those strings never reach `generate_slots`.) -/
def parseDateStr (s : String) : Option (Nat × Nat × Nat) :=
  match s.toList with
  | [y1, y2, y3, y4, c1, m1, m2, c2, d1, d2] =>
    if y1.isDigit && y2.isDigit && y3.isDigit && y4.isDigit
        && (c1 == '-') && (m1.isDigit && m2.isDigit)
        && (c2 == '-') && (d1.isDigit && d2.isDigit) then
      let y := ((y1.toNat - 48) * 1000 + (y2.toNat - 48) * 100
        + (y3.toNat - 48) * 10 + (y4.toNat - 48))
      let m := (m1.toNat - 48) * 10 + (m2.toNat - 48)
      let d := (d1.toNat - 48) * 10 + (d2.toNat - 48)
      if 1 ≤ y ∧ 1 ≤ m ∧ m ≤ 12 ∧ 1 ≤ d ∧ d ≤ daysInMonth y m then
        some (y, m, d)
      else none
    else none
  | _ => none

/-- The response model of `main.py` lines 22–27 (slots kept as start
instants; `isoformat()` rendering is presentation only). -/
structure AvailabilityResponse where
  date : String
  timezone : String
  slot_minutes : Int
  slots : List Int
  configured : Bool
deriving DecidableEq

/-- `main.py` lines 155–194, `generate_slots`. `none` models an exception
escaping (here: `strptime` on an invalid date). The loop fuel
`(close - open).toNat + 1` is exact for `0 < slot_minutes`
(see the termination theorem for claim C10). -/
def generate_slots (env : FetchEnv) (date_str : String) (slot_minutes : Int) :
    Option AvailabilityResponse :=
  let tz_name := env.businessTz.getD ("Europe/Amsterdam")
  match parseDateStr date_str with
  | none => none
  | some (y, m, d) =>
    match get_business_hours y m d with
    | none =>
      some { date := date_str, timezone := tz_name,
             slot_minutes := slot_minutes, slots := [],
             configured := configuredFlag env.icalUrl }
    | some (open_t, close_t) =>
      let busy := fetch_busy_intervals_ical env
      some { date := date_str, timezone := tz_name,
             slot_minutes := slot_minutes,
             slots := slotLoopF busy slot_minutes close_t
               ((close_t - open_t).toNat + 1) open_t,
             configured := configuredFlag env.icalUrl }

/-- A request environment with no external calendar configured and every
external call failing: `GOOGLE_CALENDAR_ICAL_URL` unset, network down,
unparseable feed. -/
def envNone : FetchEnv :=
  { icalUrl := none, businessTz := none, icsImportOk := true,
    netBody := none, calParse := fun _ => none }

/-- A request environment whose calendar feed yields the single busy event
10:00–11:00 (Scenario C of the design's testable properties). -/
def envC5 : FetchEnv :=
  { icalUrl := some ("https://calendar.example/basic.ics")
    businessTz := none
    icsImportOk := true
    netBody := some ("BEGIN:VCALENDAR")
    calParse := fun _ => some [some (600, some 660)] }

/-- The response `generate_slots` produces for Scenario C
(Saturday 2000-01-01, busy 10:00–11:00, 30-minute slots). -/
def respC5 : AvailabilityResponse :=
  { date := ("2000-01-01"), timezone := ("Europe/Amsterdam"), slot_minutes := 30,
    slots := [660, 690, 720, 750, 780, 810], configured := true }

/-- A request environment where `GOOGLE_CALENDAR_ICAL_URL` is set to a
whitespace-only string: the fetcher treats it as unconfigured (line 98
strips it), while the `configured` flag (lines 165/193, no strip) is true. -/
def envBlank : FetchEnv :=
  { icalUrl := some (" "), businessTz := none, icsImportOk := true,
    netBody := none, calParse := fun _ => none }

/-! ### Helper lemmas -/

/-- `is_free` decides exactly the negated half-open overlap test against
every busy interval. -/
theorem is_free_eq_true_iff (busy : List (Int × Int)) (s e : Int) :
    is_free busy s e = true ↔ ∀ b ∈ busy, b.2 ≤ s ∨ e ≤ b.1 := by
  unfold is_free
  rw [List.all_eq_true]
  constructor
  · intro h b hb
    have hb2 := h b hb
    simp only [Bool.not_eq_true', Bool.and_eq_true, decide_eq_true_eq, not_and] at hb2
    by_cases hlt : s < b.2
    · simp only [Bool.and_eq_false_iff, decide_eq_false_iff_not, not_lt] at hb2
      omega
    · omega
  · intro h b hb
    have hb2 := h b hb
    simp only [Bool.not_eq_true', Bool.and_eq_false_iff, decide_eq_false_iff_not, not_lt]
    omega

/-- Every emitted slot starts at or after the cursor, fits before the close
instant, and passes `is_free`. -/
theorem slotLoopF_sound (busy : List (Int × Int)) (delta endT : Int)
    (hd : 0 < delta) :
    ∀ (fuel : Nat) (cur s : Int), s ∈ slotLoopF busy delta endT fuel cur →
      cur ≤ s ∧ s + delta ≤ endT ∧ is_free busy s (s + delta) = true := by
  intro fuel
  induction fuel with
  | zero => intro cur s hs; simp [slotLoopF] at hs
  | succ n ih =>
    intro cur s hs
    simp only [slotLoopF] at hs
    by_cases h : cur + delta ≤ endT
    · rw [if_pos h] at hs
      rcases List.mem_append.mp hs with h1 | h2
      · by_cases hf : is_free busy cur (cur + delta)
        · rw [if_pos hf] at h1
          obtain rfl := List.mem_singleton.mp h1
          exact ⟨le_refl _, h, hf⟩
        · rw [if_neg hf] at h1
          simp at h1
      · obtain ⟨ih1, ih2, ih3⟩ := ih (cur + delta) s h2
        exact ⟨by omega, ih2, ih3⟩
    · rw [if_neg h] at hs
      simp at hs

/-- Every reachable candidate that fits in the window and is adjacent to or
apart from every busy interval is emitted. -/
theorem slotLoopF_complete (busy : List (Int × Int)) (delta endT : Int)
    (hd : 0 < delta) :
    ∀ (k fuel : Nat) (cur : Int), (endT - cur).toNat < fuel →
      cur + delta * k + delta ≤ endT →
      (∀ b ∈ busy, b.2 ≤ cur + delta * k ∨ cur + delta * k + delta ≤ b.1) →
      cur + delta * k ∈ slotLoopF busy delta endT fuel cur := by
  intro k
  induction k with
  | zero =>
    intro fuel cur hfuel hend hb
    simp only [Nat.cast_zero, mul_zero, add_zero] at hend hb ⊢
    cases fuel with
    | zero => omega
    | succ n =>
      simp only [slotLoopF]
      rw [if_pos (show cur + delta ≤ endT by omega)]
      apply List.mem_append_left
      rw [if_pos ((is_free_eq_true_iff busy cur (cur + delta)).mpr hb)]
      exact List.mem_singleton_self cur
  | succ j ih =>
    intro fuel cur hfuel hend hb
    rw [Nat.cast_add, Nat.cast_one] at hend hb ⊢
    have keq : cur + delta * ((j : Int) + 1) = cur + delta + delta * (j : Int) := by
      ring
    rw [keq] at hend hb ⊢
    have hdj : 0 ≤ delta * (j : Int) := mul_nonneg hd.le (Int.natCast_nonneg j)
    have hc : cur + delta ≤ endT := by
      generalize hq : delta * (j : Int) = q at hend hdj
      omega
    cases fuel with
    | zero => omega
    | succ n =>
      simp only [slotLoopF]
      rw [if_pos hc]
      apply List.mem_append_right
      exact ih n (cur + delta) (by omega) hend hb

/-- Past the bound `(endT - cur).toNat`, the fuel does not matter: the loop
has reached its stable, terminating behaviour. -/
theorem slotLoopF_stable (busy : List (Int × Int)) (delta endT : Int)
    (hd : 0 < delta) :
    ∀ (fuel1 fuel2 : Nat) (cur : Int),
      (endT - cur).toNat < fuel1 → (endT - cur).toNat < fuel2 →
      slotLoopF busy delta endT fuel1 cur = slotLoopF busy delta endT fuel2 cur := by
  intro fuel1
  induction fuel1 with
  | zero => intro fuel2 cur h1 _; omega
  | succ n ih =>
    intro fuel2 cur h1 h2
    cases fuel2 with
    | zero => omega
    | succ m =>
      simp only [slotLoopF]
      by_cases h : cur + delta ≤ endT
      · rw [if_pos h, if_pos h, ih m (cur + delta) (by omega) (by omega)]
      · rw [if_neg h, if_neg h]

/-- The merge loop's pending interval keeps its start and only grows its
end. -/
theorem mergeGo_first (l : List (Int × Int)) :
    ∀ cs ce : Int, ∃ ce2 t, mergeGo cs ce l = (cs, ce2) :: t ∧ ce ≤ ce2 := by
  induction l with
  | nil => intro cs ce; exact ⟨ce, [], rfl, le_refl ce⟩
  | cons p rest ih =>
    intro cs ce
    obtain ⟨s, e⟩ := p
    simp only [mergeGo]
    by_cases h : s > ce
    · rw [if_pos h]
      exact ⟨ce, mergeGo s e rest, rfl, le_refl ce⟩
    · rw [if_neg h]
      obtain ⟨ce2, t, heq, hle⟩ := ih cs (max ce e)
      exact ⟨ce2, t, heq, le_trans (le_max_left ce e) hle⟩

/-- Adjacent intervals in the merge loop output are strictly apart. -/
theorem mergeGo_chain (l : List (Int × Int)) :
    ∀ cs ce : Int, List.Chain' (fun a b => a.2 < b.1) (mergeGo cs ce l) := by
  induction l with
  | nil => intro cs ce; exact List.chain'_singleton _
  | cons p rest ih =>
    intro cs ce
    obtain ⟨s, e⟩ := p
    simp only [mergeGo]
    by_cases h : s > ce
    · rw [if_pos h]
      refine List.chain'_cons'.mpr ⟨?_, ih s e⟩
      intro y hy
      obtain ⟨ce2, t, heq, _⟩ := mergeGo_first rest s e
      rw [heq] at hy
      simp only [List.head?_cons, Option.mem_def, Option.some.injEq] at hy
      rw [← hy]
      exact h
    · rw [if_neg h]
      exact ih cs (max ce e)

/-- Every start in the merge loop output is a start of the pending interval
or of an input interval. -/
theorem mergeGo_mem_fst (l : List (Int × Int)) :
    ∀ cs ce : Int, ∀ p ∈ mergeGo cs ce l, p.1 = cs ∨ ∃ q ∈ l, p.1 = q.1 := by
  induction l with
  | nil =>
    intro cs ce p hp
    left
    rw [List.mem_singleton.mp hp]
  | cons a rest ih =>
    intro cs ce p hp
    obtain ⟨s, e⟩ := a
    simp only [mergeGo] at hp
    by_cases h : s > ce
    · rw [if_pos h] at hp
      rcases List.mem_cons.mp hp with rfl | hp2
      · left; rfl
      · rcases ih s e p hp2 with h1 | ⟨q, hq, h2⟩
        · right; exact ⟨(s, e), List.mem_cons_self _ _, h1⟩
        · right; exact ⟨q, List.mem_cons_of_mem _ hq, h2⟩
    · rw [if_neg h] at hp
      rcases ih cs (max ce e) p hp with h1 | ⟨q, hq, h2⟩
      · left; exact h1
      · right; exact ⟨q, List.mem_cons_of_mem _ hq, h2⟩

/-- The merge loop preserves `start < end` of every interval. -/
theorem mergeGo_mem_lt (l : List (Int × Int)) :
    ∀ cs ce : Int, cs < ce → (∀ q ∈ l, q.1 < q.2) →
      ∀ p ∈ mergeGo cs ce l, p.1 < p.2 := by
  induction l with
  | nil =>
    intro cs ce h _ p hp
    rw [List.mem_singleton.mp hp]
    exact h
  | cons a rest ih =>
    intro cs ce h hq p hp
    obtain ⟨s, e⟩ := a
    simp only [mergeGo] at hp
    by_cases hse : s > ce
    · rw [if_pos hse] at hp
      rcases List.mem_cons.mp hp with rfl | hp2
      · exact h
      · exact ih s e (hq (s, e) (List.mem_cons_self _ _))
          (fun q hq2 => hq q (List.mem_cons_of_mem _ hq2)) p hp2
    · rw [if_neg hse] at hp
      exact ih cs (max ce e) (lt_of_lt_of_le h (le_max_left ce e))
        (fun q hq2 => hq q (List.mem_cons_of_mem _ hq2)) p hp

/-- The merge loop keeps the starts sorted. -/
theorem mergeGo_sorted_le (l : List (Int × Int)) :
    ∀ cs ce : Int, (∀ q ∈ l, cs ≤ q.1) →
      List.Pairwise (fun a b => a.1 ≤ b.1) l →
      List.Pairwise (fun a b => a.1 ≤ b.1) (mergeGo cs ce l) := by
  induction l with
  | nil => intro cs ce _ _; exact List.pairwise_singleton _ _
  | cons a rest ih =>
    intro cs ce hcs hp
    obtain ⟨s, e⟩ := a
    obtain ⟨hhead, htail⟩ := List.pairwise_cons.mp hp
    simp only [mergeGo]
    by_cases hse : s > ce
    · rw [if_pos hse]
      refine List.pairwise_cons.mpr ⟨?_, ih s e (fun q hq => hhead q hq) htail⟩
      intro p hp2
      rcases mergeGo_mem_fst rest s e p hp2 with h1 | ⟨q, hq, h2⟩
      · rw [h1]
        exact hcs (s, e) (List.mem_cons_self _ _)
      · rw [h2]
        exact hcs q (List.mem_cons_of_mem _ hq)
    · rw [if_neg hse]
      exact ih cs (max ce e) (fun q hq => hcs q (List.mem_cons_of_mem _ hq)) htail

/-- On an input that is already disjoint, the merge loop changes nothing. -/
theorem mergeGo_id (l : List (Int × Int)) :
    ∀ cs ce : Int, List.Chain' (fun a b => a.2 < b.1) ((cs, ce) :: l) →
      mergeGo cs ce l = (cs, ce) :: l := by
  induction l with
  | nil => intro cs ce _; rfl
  | cons a rest ih =>
    intro cs ce h
    obtain ⟨s, e⟩ := a
    have h1 : ce < s := (List.chain'_cons.mp h).1
    have h2 := (List.chain'_cons.mp h).2
    simp only [mergeGo]
    rw [if_pos h1, ih s e h2]

theorem mergeSorted_chain (l : List (Int × Int)) :
    List.Chain' (fun a b => a.2 < b.1) (mergeSorted l) := by
  cases l with
  | nil => exact List.chain'_nil
  | cons a rest =>
    obtain ⟨s, e⟩ := a
    exact mergeGo_chain rest s e

theorem mergeSorted_mem_lt (l : List (Int × Int)) (h : ∀ q ∈ l, q.1 < q.2) :
    ∀ p ∈ mergeSorted l, p.1 < p.2 := by
  cases l with
  | nil => intro p hp; simp [mergeSorted] at hp
  | cons a rest =>
    obtain ⟨s, e⟩ := a
    exact mergeGo_mem_lt rest s e (h (s, e) (List.mem_cons_self _ _))
      (fun q hq => h q (List.mem_cons_of_mem _ hq))

theorem mergeSorted_sorted_le (l : List (Int × Int))
    (h : List.Pairwise (fun a b => a.1 ≤ b.1) l) :
    List.Pairwise (fun a b => a.1 ≤ b.1) (mergeSorted l) := by
  cases l with
  | nil => exact List.Pairwise.nil
  | cons a rest =>
    obtain ⟨s, e⟩ := a
    exact mergeGo_sorted_le rest s e (List.pairwise_cons.mp h).1
      (List.pairwise_cons.mp h).2

theorem mergeSorted_of_chain (l : List (Int × Int))
    (h : List.Chain' (fun a b => a.2 < b.1) l) : mergeSorted l = l := by
  cases l with
  | nil => rfl
  | cons a rest =>
    obtain ⟨s, e⟩ := a
    exact mergeGo_id rest s e h

theorem merge_busy_chain (busy : List (Int × Int)) :
    List.Chain' (fun a b => a.2 < b.1) (merge_busy busy) :=
  mergeSorted_chain _

theorem merge_busy_sorted_le (busy : List (Int × Int)) :
    List.Pairwise (fun a b => a.1 ≤ b.1) (merge_busy busy) := by
  haveI : IsTotal (Int × Int) (fun a b => a.1 ≤ b.1) :=
    ⟨fun a b => le_total a.1 b.1⟩
  haveI : IsTrans (Int × Int) (fun a b => a.1 ≤ b.1) :=
    ⟨fun a b c h1 h2 => le_trans h1 h2⟩
  exact mergeSorted_sorted_le _
    (List.sorted_insertionSort (fun a b : Int × Int => a.1 ≤ b.1) busy)

theorem merge_busy_mem_lt (busy : List (Int × Int))
    (h : ∀ p ∈ busy, p.1 < p.2) : ∀ p ∈ merge_busy busy, p.1 < p.2 :=
  mergeSorted_mem_lt _ (fun q hq =>
    h q ((List.perm_insertionSort (fun a b : Int × Int => a.1 ≤ b.1)
      busy).subset hq))

/-- A chain of strictly-apart intervals with positive lengths is pairwise
strictly apart. -/
theorem pairwise_disj_of_chain (l : List (Int × Int))
    (hc : List.Chain' (fun a b => a.2 < b.1) l)
    (hm : ∀ p ∈ l, p.1 < p.2) :
    List.Pairwise (fun a b => a.2 < b.1) l := by
  induction l with
  | nil => exact List.Pairwise.nil
  | cons a t ih =>
    have hct : List.Chain' (fun a b => a.2 < b.1) t := hc.tail
    have hpt := ih hct (fun p hp => hm p (List.mem_cons_of_mem _ hp))
    refine List.pairwise_cons.mpr ⟨?_, hpt⟩
    intro b hb
    cases t with
    | nil => cases hb
    | cons c t2 =>
      have hac : a.2 < c.1 := (List.chain'_cons.mp hc).1
      rcases List.mem_cons.mp hb with rfl | hb2
      · exact hac
      · have hcb := (List.pairwise_cons.mp hpt).1 b hb2
        have hc2 : c.1 < c.2 := hm c (List.mem_cons_of_mem _ (List.mem_cons_self _ _))
        omega

theorem sorted_lt_of_chain (l : List (Int × Int))
    (hc : List.Chain' (fun a b => a.2 < b.1) l)
    (hm : ∀ p ∈ l, p.1 < p.2) :
    List.Pairwise (fun a b => a.1 < b.1) l := by
  refine (pairwise_disj_of_chain l hc hm).imp_of_mem ?_
  intro a b ha _ hab
  have := hm a ha
  omega

/-- Weekday-case helpers for `get_business_hours`. -/
theorem gbh_weekday_lt5 (y m d : Nat) (h : dateWeekday y m d < 5) :
    get_business_hours y m d = some (540, 1080) := by
  simp only [get_business_hours]
  split_ifs <;> first | rfl | omega

theorem gbh_sat (y m d : Nat) (h : dateWeekday y m d = 5) :
    get_business_hours y m d = some (600, 840) := by
  simp only [get_business_hours]
  split_ifs <;> first | rfl | omega

theorem gbh_sun (y m d : Nat) (h : dateWeekday y m d = 6) :
    get_business_hours y m d = none := by
  simp only [get_business_hours]
  split_ifs <;> first | rfl | omega

/-! ### Claim theorems -/

/-- Claim C7: for every calendar date, the business-hours resolver returns
09:00–18:00 (minutes 540–1080) when the weekday is Monday through Friday,
10:00–14:00 (minutes 600–840) when it is Saturday, and no window when it is
Sunday. -/
theorem business_hours_policy (y m d : Nat) :
    (dateWeekday y m d < 5 → get_business_hours y m d = some (540, 1080)) ∧
    (dateWeekday y m d = 5 → get_business_hours y m d = some (600, 840)) ∧
    (dateWeekday y m d = 6 → get_business_hours y m d = none) :=
  ⟨fun h => gbh_weekday_lt5 y m d h, fun h => gbh_sat y m d h,
    fun h => gbh_sun y m d h⟩

theorem business_hours_policy_witness :
    get_business_hours 2024 1 1 = some (540, 1080) ∧
    get_business_hours 2000 1 1 = some (600, 840) ∧
    get_business_hours 2000 1 2 = none :=
  ⟨(business_hours_policy 2024 1 1).1 (by decide),
    (business_hours_policy 2000 1 1).2.1 (by decide),
    (business_hours_policy 2000 1 2).2.2 (by decide)⟩

/-- Claim C6: for every date whose weekday is closed (the resolver returns
`none`, i.e. every Sunday), the pipeline returns the empty slot list and the
result does not depend on the fetch outcome at all (the calendar fetch is
never attempted): the response is this fixed record for every environment. -/
theorem closed_day_short_circuits (env : FetchEnv) (s : String)
    (slot : Int) (y m d : Nat)
    (hp : parseDateStr s = some (y, m, d)) (hw : dateWeekday y m d = 6) :
    generate_slots env s slot =
      some { date := s, timezone := env.businessTz.getD ("Europe/Amsterdam"),
             slot_minutes := slot, slots := [],
             configured := configuredFlag env.icalUrl } := by
  simp only [generate_slots, hp, gbh_sun y m d hw]

theorem closed_day_short_circuits_witness :
    generate_slots envNone ("2000-01-02") 30 =
      some { date := ("2000-01-02"), timezone := ("Europe/Amsterdam"),
             slot_minutes := 30, slots := [], configured := false } :=
  closed_day_short_circuits envNone ("2000-01-02") 30 2000 1 2
    (by decide) (by decide)

/-- Claim C2: for every finite input list of `(start, end)` pairs with
`start < end`, the sort-and-merge step outputs a sequence sorted strictly
ascending by start in which every adjacent pair satisfies
`i.end < (i+1).start` (no overlap, no touching). -/
theorem merge_output_sorted_disjoint (busy : List (Int × Int))
    (h : ∀ p ∈ busy, p.1 < p.2) :
    List.Sorted (fun a b : Int × Int => a.1 < b.1) (merge_busy busy) ∧
    List.Chain' (fun a b : Int × Int => a.2 < b.1) (merge_busy busy) :=
  ⟨sorted_lt_of_chain _ (merge_busy_chain busy) (merge_busy_mem_lt busy h),
    merge_busy_chain busy⟩

theorem merge_output_sorted_disjoint_witness :
    List.Sorted (fun a b : Int × Int => a.1 < b.1)
      (merge_busy [(540, 600), (570, 630), (700, 720)]) ∧
    List.Chain' (fun a b : Int × Int => a.2 < b.1)
      (merge_busy [(540, 600), (570, 630), (700, 720)]) :=
  merge_output_sorted_disjoint [(540, 600), (570, 630), (700, 720)]
    (by decide)

/-- Claim C8: the merge step is idempotent — applying the sort-and-merge to
its own output returns that output unchanged (for every input list). -/
theorem merge_idempotent (busy : List (Int × Int)) :
    merge_busy (merge_busy busy) = merge_busy busy := by
  have h1 : List.insertionSort (fun a b : Int × Int => a.1 ≤ b.1)
      (merge_busy busy) = merge_busy busy :=
    List.Sorted.insertionSort_eq (merge_busy_sorted_le busy)
  have h2 : merge_busy (merge_busy busy)
      = mergeSorted (List.insertionSort (fun a b : Int × Int => a.1 ≤ b.1)
        (merge_busy busy)) :=
    rfl
  rw [h2, h1]
  exact mergeSorted_of_chain _ (merge_busy_chain busy)

/-- Claim C3: the busy-interval fetcher never raises: a missing or blank
feed URL, a transport failure (including non-success HTTP status, which
`raise_for_status` turns into a raise), or a feed parse failure each yield
the empty busy set, and an individual event whose field access raises is
skipped while the remaining events are still processed. (The Lean embedding
is a total function, so no failure can escape it.) -/
theorem fetch_degrades_to_empty (env : FetchEnv) :
    (pyStrip (env.icalUrl.getD ("")) = ("") →
      fetch_busy_intervals_ical env = []) ∧
    (env.netBody = none → fetch_busy_intervals_ical env = []) ∧
    (∀ body, env.netBody = some body → env.calParse body = none →
      fetch_busy_intervals_ical env = []) ∧
    (∀ body evs1 evs2, pyStrip (env.icalUrl.getD ("")) ≠ ("") →
      env.icsImportOk = true → env.netBody = some body →
      env.calParse body = some (evs1 ++ none :: evs2) →
      fetch_busy_intervals_ical env =
        merge_busy ((evs1 ++ evs2).filterMap eventClip)) := by
  refine ⟨?_, ?_, ?_, ?_⟩
  · intro h
    simp only [fetch_busy_intervals_ical]
    rw [if_pos h]
  · intro h
    simp only [fetch_busy_intervals_ical, h]
    split_ifs <;> rfl
  · intro body hbody hparse
    simp only [fetch_busy_intervals_ical, hbody, hparse]
    split_ifs <;> rfl
  · intro body evs1 evs2 hurl himport hbody hparse
    simp only [fetch_busy_intervals_ical, himport, hbody, hparse]
    rw [if_neg hurl]
    simp only [Bool.not_true, Bool.false_eq_true, if_false]
    rw [List.filterMap_append, List.filterMap_append,
      List.filterMap_cons_none]
    rfl

theorem fetch_degrades_to_empty_witness :
    fetch_busy_intervals_ical envNone = [] ∧
    fetch_busy_intervals_ical
      { envNone with icalUrl := some ("https://x"), netBody := none } = [] ∧
    fetch_busy_intervals_ical
      { envNone with icalUrl := some ("https://x"), netBody := some ("bad feed") } = [] ∧
    fetch_busy_intervals_ical
      { envNone with icalUrl := some ("https://x"), netBody := some ("feed"), calParse := fun _ => some [none, some (600, some 660)] } =
      merge_busy ([some ((600 : Int), some (660 : Int))].filterMap eventClip) :=
  ⟨(fetch_degrades_to_empty envNone).1 (by decide),
    (fetch_degrades_to_empty _).2.1 rfl,
    (fetch_degrades_to_empty _).2.2.1 ("bad feed") rfl rfl,
    (fetch_degrades_to_empty _).2.2.2 ("feed") [] [some (600, some 660)]
      (by decide) rfl rfl rfl⟩

/-- Claim C1: for every resolved business window `[open, close)`, every
fetched busy-interval set and every positive slot length, each emitted start
instant `x` begins the candidate `[x, x + slot)` — exactly `slot` minutes
long — which lies fully inside `[open, close)` and fails the half-open
overlap test against every busy interval. -/
theorem slots_within_window_and_free (env : FetchEnv) (date_str : String)
    (slot : Int) (y m d : Nat) (o c : Int) (r : AvailabilityResponse)
    (x : Int) (hd : 0 < slot)
    (hp : parseDateStr date_str = some (y, m, d))
    (hh : get_business_hours y m d = some (o, c))
    (hr : generate_slots env date_str slot = some r)
    (hx : x ∈ r.slots) :
    o ≤ x ∧ x + slot ≤ c ∧
      ∀ b ∈ fetch_busy_intervals_ical env, ¬(x < b.2 ∧ x + slot > b.1) := by
  simp only [generate_slots, hp, hh, Option.some.injEq] at hr
  subst hr
  obtain ⟨h1, h2, h3⟩ :=
    slotLoopF_sound (fetch_busy_intervals_ical env) slot c hd
      ((c - o).toNat + 1) o x hx
  refine ⟨h1, h2, ?_⟩
  intro b hb
  have hfree := (is_free_eq_true_iff _ x (x + slot)).mp h3 b hb
  omega

theorem slots_within_window_and_free_witness :
    (600 : Int) ≤ 660 ∧ (660 : Int) + 30 ≤ 840 ∧
      ∀ b ∈ fetch_busy_intervals_ical envC5,
        ¬((660 : Int) < b.2 ∧ (660 : Int) + 30 > b.1) :=
  slots_within_window_and_free envC5 ("2000-01-01") 30 2000 1 1 600 840
    respC5 660 (by decide) (by decide) (by decide) (by decide) (by decide)

/-- Claim C5: the overlap boundary is inclusive-adjacent. First conjunct: a
reachable candidate that fits in the window and, for every busy interval,
either starts at or after that interval's end or ends at or before that
interval's start (equality — exact adjacency — allowed) is emitted. Second
conjunct: on Saturday 2000-01-01 with the single busy interval 10:00–11:00
and 30-minute slots, exactly 11:00, 11:30, 12:00, 12:30, 13:00, 13:30 are
emitted (the 10:00 and 10:30 candidates are excluded). -/
theorem adjacent_slots_emitted :
    (∀ (busy : List (Int × Int)) (delta endT cur : Int) (fuel k : Nat),
      0 < delta → (endT - cur).toNat < fuel →
      cur + delta * k + delta ≤ endT →
      (∀ b ∈ busy, b.2 ≤ cur + delta * k ∨ cur + delta * k + delta ≤ b.1) →
      cur + delta * k ∈ slotLoopF busy delta endT fuel cur) ∧
    (generate_slots envC5 ("2000-01-01") 30).map AvailabilityResponse.slots
      = some [660, 690, 720, 750, 780, 810] := by
  constructor
  · intro busy delta endT cur fuel k hd hfuel hend hb
    exact slotLoopF_complete busy delta endT hd k fuel cur hfuel hend hb
  · decide

theorem adjacent_slots_emitted_witness :
    (600 : Int) + 30 * ((2 : Nat) : Int) ∈
      slotLoopF [((600 : Int), (660 : Int))] 30 840 241 600 :=
  adjacent_slots_emitted.1 [((600 : Int), (660 : Int))] 30 840 600 241 2
    (by decide) (by decide) (by decide) (by decide)

/-- Claim C10 (termination): with `0 < slot_minutes`, the distance from the
cursor to the window close strictly decreases at every iteration, and past
the bound `(close - cur).toNat` the loop's fuel is irrelevant — the
fuel-indexed loop has stabilised, i.e. the enumerator is a total function
under the positive-slot-length precondition (which the code indeed never
enforces at any boundary: `slot_minutes` is accepted unchecked). -/
theorem slot_loop_terminates (busy : List (Int × Int)) (delta endT : Int)
    (hd : 0 < delta) :
    (∀ cur : Int, cur + delta ≤ endT →
      (endT - (cur + delta)).toNat < (endT - cur).toNat) ∧
    (∀ (fuel1 fuel2 : Nat) (cur : Int),
      (endT - cur).toNat < fuel1 → (endT - cur).toNat < fuel2 →
      slotLoopF busy delta endT fuel1 cur
        = slotLoopF busy delta endT fuel2 cur) := by
  constructor
  · intro cur h
    omega
  · exact slotLoopF_stable busy delta endT hd

theorem slot_loop_terminates_witness :
    ((840 : Int) - (600 + 30)).toNat < ((840 : Int) - 600).toNat ∧
    slotLoopF [] 30 840 11 830 = slotLoopF [] 30 840 250 830 :=
  ⟨(slot_loop_terminates [] 30 840 (by decide)).1 600 (by decide),
    (slot_loop_terminates [] 30 840 (by decide)).2 11 250 830
      (by decide) (by decide)⟩

/-- Claim C9 is false as stated: the date string "2024-13-01" is accepted by
the boundary pattern (ten characters, digits in the right places) but
`datetime.strptime` raises `ValueError` on it, so the availability
computation does not return a result (the exception escapes to the
transport layer, modelled here by `generate_slots` returning `none`). -/
theorem availability_invalid_date_counterexample :
    matchesDatePattern ("2024-13-01") = true ∧
    generate_slots envNone ("2024-13-01") 30 = none := by
  constructor
  · decide
  · decide

/-- Claim C9, amended: for every date string the boundary pattern accepts
that also denotes a valid calendar date (so `strptime` succeeds) and every
positive slot length, `generate_slots` returns a result — no exception
escapes to the transport layer. -/
theorem availability_total_on_valid_dates (env : FetchEnv) (s : String)
    (slot : Int) (y m d : Nat) (_hslot : 0 < slot)
    (hp : parseDateStr s = some (y, m, d)) :
    (generate_slots env s slot).isSome = true := by
  simp only [generate_slots, hp]
  rcases hb : get_business_hours y m d with _ | ⟨o, c⟩ <;> simp

theorem availability_total_on_valid_dates_witness :
    (generate_slots envNone ("2024-02-29") 30).isSome = true :=
  availability_total_on_valid_dates envNone ("2024-02-29") 30 2024 2 29
    (by decide) (by decide)

/-- Claim C4 is false as stated: with `GOOGLE_CALENDAR_ICAL_URL` set to the
whitespace-only string " ", the fetcher's stripped check treats the feed as
unconfigured (empty busy set), yet the `configured` flag — computed by
Python truthiness without stripping — is `true`, not `false` as the claim
requires for a blank URL. -/
theorem configured_blank_url_counterexample :
    pyStrip (envBlank.icalUrl.getD ("")) = ("") ∧
    fetch_busy_intervals_ical envBlank = [] ∧
    (generate_slots envBlank ("2024-01-01") 30).map
      AvailabilityResponse.configured = some true := by
  refine ⟨by decide, by decide, by decide⟩

/-- Claim C4, amended: the `configured` flag equals the Python truthiness of
the raw (unstripped) feed-URL variable — true exactly when the variable is
present with a non-empty string, so a whitespace-only URL yields
`configured = true` even though the fetcher treats it as unconfigured — and
the flag is independent of the fetch outcome (network body and feed parse
results never change it). -/
theorem configured_amended (env : FetchEnv) (s : String) (slot : Int) :
    (∀ r, generate_slots env s slot = some r →
      r.configured = configuredFlag env.icalUrl) ∧
    (configuredFlag env.icalUrl = true ↔
      ∃ u, env.icalUrl = some u ∧ u ≠ ("")) ∧
    (∀ nb cp,
      (generate_slots { env with netBody := nb, calParse := cp } s slot).map
          AvailabilityResponse.configured
        = (generate_slots env s slot).map AvailabilityResponse.configured) := by
  refine ⟨?_, ?_, ?_⟩
  · intro r hr
    simp only [generate_slots] at hr
    rcases hp : parseDateStr s with _ | ⟨y, m, d⟩
    · simp only [hp] at hr
      cases hr
    · rcases hb : get_business_hours y m d with _ | ⟨o, c⟩ <;>
        (simp only [hp, hb, Option.some.injEq] at hr; subst hr; rfl)
  · simp only [configuredFlag, Bool.not_eq_true', beq_eq_false_iff_ne, ne_eq]
    cases h : env.icalUrl with
    | none => simp
    | some u => simp [Option.getD]
  · intro nb cp
    simp only [generate_slots]
    rcases hp : parseDateStr s with _ | ⟨y, m, d⟩
    · simp only [hp]
    · rcases hb : get_business_hours y m d with _ | ⟨o, c⟩ <;>
        (simp only [hp, hb]; try rfl)

theorem configured_amended_witness :
    ((generate_slots envBlank ("2024-01-02") 30).map
        AvailabilityResponse.configured
      = (generate_slots envBlank ("2024-01-02") 30).map
        AvailabilityResponse.configured) ∧
    (configuredFlag envBlank.icalUrl = true ↔
      ∃ u, envBlank.icalUrl = some u ∧ u ≠ ("")) :=
  ⟨(configured_amended envBlank ("2024-01-02") 30).2.2 envBlank.netBody
      envBlank.calParse,
    (configured_amended envBlank ("2024-01-02") 30).2.1⟩

end Booking
